import Mathlib

/-!
Verification of the mindmap editor server (`editor/server.py`).

The development shallowly embeds the server's file-store operations:
path resolution and the `startswith` containment check, `read_file`,
`write_file`, `handle_node_update` (targeted text replacement),
`get_tree` (recursive directory-tree construction), `broadcast_update`
and `get_locale`.  Paths are modelled as lists of segments, the
filesystem as an association list from resolved absolute paths to file
contents plus a list of directories, and broadcasts as explicit event
lists returned by each operation.
-/

/-- Absolute or relative filesystem path, as a list of segments. -/
abbrev Seg := String

/-- Embedding of `pathlib.Path.resolve()` applied to `root / req` (no
symlinks): `.` and empty segments vanish, `..` removes the last
accumulated segment (staying at the filesystem root when none is left),
and ordinary segments are appended. -/
def resolveSegs (acc : List Seg) : List Seg → List Seg
  | [] => acc
  | s :: rest =>
    if s = "." ∨ s = "" then resolveSegs acc rest
    else if s = ".." then resolveSegs acc.dropLast rest
    else resolveSegs (acc ++ [s]) rest

/-- Embedding of `str(path)` for an absolute path: segments joined by `/`
with a leading `/`. -/
def renderPath (p : List Seg) : String :=
  p.foldl (fun a s => a ++ "/" ++ s) ""

/-- Embedding of Python `s.startswith(pre)` on strings: code-point
sequence comparison. -/
def strStartsWith (s pre : String) : Bool :=
  pre.data.isPrefixOf s.data

/-- The server's containment check, from `server.py`:
`str((MINDMAP_DIR / file_path).resolve()).startswith(str(MINDMAP_DIR.resolve()))`. -/
def pathCheck (root req : List Seg) : Bool :=
  strStartsWith (renderPath (resolveSegs root req)) (renderPath root)

/-- Ground truth for "the resolved path stays inside the root": the root's
segments are a prefix of the resolved path's segments. -/
def insideRoot (root req : List Seg) : Bool :=
  root.isPrefixOf (resolveSegs root req)

/-- Filesystem state: files as an association list from resolved absolute
paths (segment lists) to text contents, plus existing directories. -/
structure FS where
  files : List (List Seg × String)
  dirs : List (List Seg)
deriving DecidableEq

/-- Content of the file at `p`, if a file exists there. -/
def FS.fileAt (fs : FS) (p : List Seg) : Option String :=
  fs.files.lookup p

/-- Embedding of `Path.is_file()`. -/
def FS.isFile (fs : FS) (p : List Seg) : Bool :=
  (fs.fileAt p).isSome

/-- Embedding of `Path.exists()`. -/
def FS.existsAt (fs : FS) (p : List Seg) : Bool :=
  fs.isFile p || fs.dirs.contains p

/-- Embedding of `Path.write_text`: the file at `p` now has content `c`. -/
def FS.setFile (fs : FS) (p : List Seg) (c : String) : FS :=
  ⟨(p, c) :: fs.files, fs.dirs⟩

/-- Embedding of `full_path.parent.mkdir(parents=True, exist_ok=True)`:
every missing ancestor directory of `p` is created; existing ancestor
directories are fine (`exist_ok`), but when an ancestor exists as a
file the call raises (`FileExistsError`), modelled as `none`. -/
def FS.mkdirParents (fs : FS) (p : List Seg) : Option FS :=
  if ((List.range p.length).map (fun k => p.take k)).any (fun d => fs.isFile d) then
    none
  else
    some ⟨fs.files,
      (((List.range p.length).map (fun k => p.take k)).filter
        (fun d => !fs.dirs.contains d)) ++ fs.dirs⟩

/-- Event pushed to live subscribers. -/
inductive Event where
  | fileUpdated (path : List Seg) (content : String)
deriving DecidableEq

/-- Result of `read_file` (`GET /api/files/{file_path}`). -/
inductive ReadResult where
  | accessDenied
  | notFound
  | notAFile
  | ok (content : String)
deriving DecidableEq

/-- Embedding of `read_file` from `server.py`: resolve, `startswith`
containment check, existence check, file check, then read. -/
def read_file (fs : FS) (root req : List Seg) : ReadResult :=
  let full := resolveSegs root req
  if !pathCheck root req then .accessDenied
  else if !fs.existsAt full then .notFound
  else if !fs.isFile full then .notAFile
  else .ok ((fs.fileAt full).getD "")

/-- Status returned by `write_file` (`PUT /api/files/{file_path}`).
`raised` models an unhandled exception (HTTP 500): `mkdir` over an
ancestor that exists as a file, or `write_text` on a directory. -/
inductive WriteStatus where
  | accessDenied
  | payloadTooLarge
  | raised
  | ok
deriving DecidableEq

/-- Full outcome of `write_file`: HTTP-level status, resulting filesystem,
broadcasts emitted. -/
structure WriteOut where
  status : WriteStatus
  fs : FS
  broadcasts : List Event
deriving DecidableEq

/-- The server's `MAX_FILE_SIZE = 1024 * 1024`. -/
def MAX_FILE_SIZE : Nat := 1024 * 1024

/-- Embedding of `write_file` from `server.py`: containment check, size
check against `MAX_FILE_SIZE` on the UTF-8 byte length, `mkdir` of
parents, write, broadcast of a `file_updated` event.  The unchecked
failure paths raise: `mkdir` when an ancestor of the target exists as a
file (the parents already created persist — here none do, since that
very ancestor blocks the first missing level), and `write_text` when
the target itself is an existing directory. -/
def write_file (fs : FS) (root req : List Seg) (content : String) : WriteOut :=
  let full := resolveSegs root req
  if !pathCheck root req then ⟨.accessDenied, fs, []⟩
  else if content.utf8ByteSize > MAX_FILE_SIZE then ⟨.payloadTooLarge, fs, []⟩
  else
    match fs.mkdirParents full with
    | none => ⟨.raised, fs, []⟩
    | some fs1 =>
      if fs1.dirs.contains full then ⟨.raised, fs1, []⟩
      else ⟨.ok, fs1.setFile full content, [.fileUpdated req content]⟩

/-- C1: the spec demands that every request path resolving outside the root
is rejected with AccessDenied before any filesystem access.  The code's
containment check is a bare string `startswith`, so a `..` path landing in
a sibling directory whose name extends the root's name (here
`mindmap-private` next to root `mindmap`) passes the check: the resolved
path is outside the root (`insideRoot` is false), yet `read_file` serves
the file's content and `write_file` reports ok and writes outside the
root.  This exhibits the code bug at a concrete failing input. -/
theorem C1_startswith_escape_bug :
    pathCheck ["home", "user", "proj", "mindmap"]
      ["..", "mindmap-private", "secret.md"] = true
    ∧ insideRoot ["home", "user", "proj", "mindmap"]
        ["..", "mindmap-private", "secret.md"] = false
    ∧ read_file
        ⟨[(["home", "user", "proj", "mindmap-private", "secret.md"], "secret")], []⟩
        ["home", "user", "proj", "mindmap"]
        ["..", "mindmap-private", "secret.md"] = .ok "secret"
    ∧ (write_file ⟨[], []⟩ ["home", "user", "proj", "mindmap"]
        ["..", "mindmap-private", "secret.md"] "pwn").status = .ok
    ∧ (write_file ⟨[], []⟩ ["home", "user", "proj", "mindmap"]
        ["..", "mindmap-private", "secret.md"] "pwn").fs.fileAt
        ["home", "user", "proj", "mindmap-private", "secret.md"] = some "pwn" := by
  decide

/-- C5 counterexample: the claim says a write with an in-root path
succeeds iff the content is within the 1 MiB cap; but when the resolved
target is an existing directory, `write_text` raises `IsADirectoryError`
(HTTP 500), so the cap-sized write does not succeed. -/
theorem C5_write_to_directory_counterexample :
    pathCheck ["r"] ["m"] = true
    ∧ ("hi" : String).utf8ByteSize ≤ MAX_FILE_SIZE
    ∧ (write_file ⟨[], [["r", "m"]]⟩ ["r"] ["m"] "hi").status = .raised
    ∧ (write_file ⟨[], [["r", "m"]]⟩ ["r"] ["m"] "hi").status ≠ .ok := by
  decide

/-- C5 amended: for an in-root path whose resolved target is not an
existing directory and none of whose ancestors exists as a file, the
write succeeds exactly when the UTF-8 byte length of the content is at
most `MAX_FILE_SIZE = 1048576`; an oversized payload is rejected with
PayloadTooLarge leaving the filesystem unchanged and emitting no
broadcast, and an accepted write creates the missing parent directories,
persists the content and broadcasts a `file_updated` event (otherwise
the operation raises, HTTP 500, instead). -/
theorem C5_write_size_cap_amended (fs : FS) (root req : List Seg) (content : String)
    (hchk : pathCheck root req = true)
    (hnd : resolveSegs root req ∉ fs.dirs)
    (hanc : (((List.range (resolveSegs root req).length).map
        (fun k => (resolveSegs root req).take k)).any (fun d => fs.isFile d)) = false) :
    ((write_file fs root req content).status = .ok
      ↔ content.utf8ByteSize ≤ MAX_FILE_SIZE)
    ∧ (content.utf8ByteSize ≤ MAX_FILE_SIZE →
        write_file fs root req content =
          ⟨.ok, ((fs.mkdirParents (resolveSegs root req)).getD fs).setFile
              (resolveSegs root req) content,
            [.fileUpdated req content]⟩)
    ∧ (MAX_FILE_SIZE < content.utf8ByteSize →
        write_file fs root req content = ⟨.payloadTooLarge, fs, []⟩) := by
  have hmk : fs.mkdirParents (resolveSegs root req) =
      some ⟨fs.files,
        (((List.range (resolveSegs root req).length).map
          (fun k => (resolveSegs root req).take k)).filter
            (fun d => !fs.dirs.contains d)) ++ fs.dirs⟩ := by
    simp only [FS.mkdirParents, hanc, Bool.false_eq_true, if_false]
  have hfalse : ¬ ∃ a < (resolveSegs root req).length,
      (resolveSegs root req).length ≤ a := by
    rintro ⟨a, h1, h2⟩
    omega
  by_cases hsz : MAX_FILE_SIZE < content.utf8ByteSize
  · simp [write_file, hchk, hsz]
  · simp [write_file, hchk, hsz, hmk, hnd, hfalse]
    omega

/-- Witness for C5 amended at a concrete conflict-free in-root path. -/
theorem C5_write_size_cap_amended_witness :
    pathCheck ["r"] ["m", "a.md"] = true
    ∧ resolveSegs ["r"] ["m", "a.md"] ∉ (⟨[], []⟩ : FS).dirs
    ∧ (((List.range (resolveSegs ["r"] ["m", "a.md"]).length).map
        (fun k => (resolveSegs ["r"] ["m", "a.md"]).take k)).any
          (fun d => (⟨[], []⟩ : FS).isFile d)) = false
    ∧ (((write_file ⟨[], []⟩ ["r"] ["m", "a.md"] "hi").status = .ok
        ↔ "hi".utf8ByteSize ≤ MAX_FILE_SIZE)
      ∧ ("hi".utf8ByteSize ≤ MAX_FILE_SIZE →
          write_file ⟨[], []⟩ ["r"] ["m", "a.md"] "hi" =
            ⟨.ok, (((⟨[], []⟩ : FS).mkdirParents
                (resolveSegs ["r"] ["m", "a.md"])).getD ⟨[], []⟩).setFile
                (resolveSegs ["r"] ["m", "a.md"]) "hi",
              [.fileUpdated ["m", "a.md"] "hi"]⟩)
      ∧ (MAX_FILE_SIZE < "hi".utf8ByteSize →
          write_file ⟨[], []⟩ ["r"] ["m", "a.md"] "hi" =
            ⟨.payloadTooLarge, ⟨[], []⟩, []⟩)) :=
  ⟨by decide, by decide, by decide,
    C5_write_size_cap_amended ⟨[], []⟩ ["r"] ["m", "a.md"] "hi" (by decide) (by decide)
      (by decide)⟩

/-- C6 counterexample: the claim says writing any cap-sized content to
any in-root path and reading it back returns that content; but when the
path resolves to an existing directory the write raises (HTTP 500) and
the read then reports NotAFile (400), not the content. -/
theorem C6_roundtrip_directory_counterexample :
    pathCheck ["r"] ["m"] = true
    ∧ ("hi" : String).utf8ByteSize ≤ MAX_FILE_SIZE
    ∧ read_file (write_file ⟨[], [["r", "m"]]⟩ ["r"] ["m"] "hi").fs ["r"] ["m"] =
        .notAFile
    ∧ read_file (write_file ⟨[], [["r", "m"]]⟩ ["r"] ["m"] "hi").fs ["r"] ["m"] ≠
        .ok "hi" := by
  decide

/-- C6 amended: writing an in-root path whose resolved target is not an
existing directory and none of whose ancestors exists as a file, with
content within the size cap, and then reading the same path returns
exactly that content. -/
theorem C6_write_read_roundtrip_amended (fs : FS) (root req : List Seg) (content : String)
    (hchk : pathCheck root req = true)
    (hsz : content.utf8ByteSize ≤ MAX_FILE_SIZE)
    (hnd : resolveSegs root req ∉ fs.dirs)
    (hanc : (((List.range (resolveSegs root req).length).map
        (fun k => (resolveSegs root req).take k)).any (fun d => fs.isFile d)) = false) :
    read_file (write_file fs root req content).fs root req = .ok content := by
  have hmk : fs.mkdirParents (resolveSegs root req) =
      some ⟨fs.files,
        (((List.range (resolveSegs root req).length).map
          (fun k => (resolveSegs root req).take k)).filter
            (fun d => !fs.dirs.contains d)) ++ fs.dirs⟩ := by
    simp only [FS.mkdirParents, hanc, Bool.false_eq_true, if_false]
  have hfalse : ¬ ∃ a < (resolveSegs root req).length,
      (resolveSegs root req).length ≤ a := by
    rintro ⟨a, h1, h2⟩
    omega
  have hw : write_file fs root req content =
      ⟨.ok, (FS.mk fs.files
          ((((List.range (resolveSegs root req).length).map
            (fun k => (resolveSegs root req).take k)).filter
              (fun d => !fs.dirs.contains d)) ++ fs.dirs)).setFile
          (resolveSegs root req) content,
        [.fileUpdated req content]⟩ := by
    simp [write_file, hchk, Nat.not_lt.mpr hsz, hmk, hnd, hfalse]
  rw [hw]
  simp [read_file, hchk, FS.existsAt, FS.isFile, FS.fileAt, FS.setFile, List.lookup]

/-- Witness for C6 amended at a concrete path and content. -/
theorem C6_write_read_roundtrip_amended_witness :
    pathCheck ["r"] ["m", "a.md"] = true
    ∧ "hello".utf8ByteSize ≤ MAX_FILE_SIZE
    ∧ resolveSegs ["r"] ["m", "a.md"] ∉ (⟨[], []⟩ : FS).dirs
    ∧ (((List.range (resolveSegs ["r"] ["m", "a.md"]).length).map
        (fun k => (resolveSegs ["r"] ["m", "a.md"]).take k)).any
          (fun d => (⟨[], []⟩ : FS).isFile d)) = false
    ∧ read_file (write_file ⟨[], []⟩ ["r"] ["m", "a.md"] "hello").fs
        ["r"] ["m", "a.md"] = .ok "hello" :=
  ⟨by decide, by decide, by decide, by decide,
    C6_write_read_roundtrip_amended ⟨[], []⟩ ["r"] ["m", "a.md"] "hello" (by decide)
      (by decide) (by decide) (by decide)⟩

/-- Embedding of Python `needle in hay` for strings, on code-point lists:
some suffix of the haystack starts with the needle (the empty needle is
contained in everything). -/
def listContains (needle : List Char) : List Char → Bool
  | [] => needle.isEmpty
  | c :: rest => needle.isPrefixOf (c :: rest) || listContains needle rest

/-- Embedding of Python `old_text in s`. -/
def strContains (hay needle : String) : Bool :=
  listContains needle.data hay.data

/-- Embedding of Python `s.replace(old, new, 1)` on code-point lists:
replace the first occurrence of `old` by `new`, leave the list unchanged
when `old` does not occur (the empty `old` matches at position 0). -/
def replaceFirstList (old new : List Char) : List Char → List Char
  | [] => if old.isPrefixOf ([] : List Char) then new else []
  | c :: rest =>
    if old.isPrefixOf (c :: rest) then new ++ (c :: rest).drop old.length
    else c :: replaceFirstList old new rest

/-- Embedding of Python `s.replace(old, new, 1)` on strings. -/
def strReplaceFirst (s old new : String) : String :=
  ⟨replaceFirstList old.data new.data s.data⟩

/-- Embedding of Python `content.split('\\n')` on code-point lists:
structural recursion so that concrete instances evaluate. -/
def splitLinesList : List Char → List (List Char)
  | [] => [[]]
  | c :: rest =>
    match splitLinesList rest with
    | [] => [[c]]
    | l :: ls => if c = '\n' then [] :: l :: ls else (c :: l) :: ls

/-- Embedding of Python `content.split('\\n')` on strings. -/
def strSplitLines (s : String) : List String :=
  (splitLinesList s.data).map String.mk

/-- Reply sent back to the requesting WebSocket client by
`handle_node_update`. -/
inductive UpdateReply where
  | invalidMessage
  | accessDenied
  | notFound
  | raised
  | invalidLine (n : Int) (total : Nat)
  | textMismatchAtLine (n : Int)
  | textMismatchWhole
  | updateSuccess (path : List Seg)
deriving DecidableEq

/-- Full outcome of `handle_node_update`: reply to the sender, resulting
filesystem, broadcasts emitted. -/
structure UpdateOut where
  reply : UpdateReply
  fs : FS
  broadcasts : List Event
deriving DecidableEq

/-- Embedding of `handle_node_update` from `server.py`.  The `raised`
outcome models `read_text` raising when the resolved path exists but is a
directory (the code checks `exists()` but not `is_file()` here). -/
def handle_node_update (fs : FS) (root file_path : List Seg)
    (line_number : Option Int) (old_text new_text : String) : UpdateOut :=
  if file_path.isEmpty then ⟨.invalidMessage, fs, []⟩
  else
    let full := resolveSegs root file_path
    if !pathCheck root file_path then ⟨.accessDenied, fs, []⟩
    else if !fs.existsAt full then ⟨.notFound, fs, []⟩
    else if !fs.isFile full then ⟨.raised, fs, []⟩
    else
      let content := (fs.fileAt full).getD ""
      match line_number with
      | some n =>
        let lines := strSplitLines content
        let lineIdx := n - 1
        if 0 ≤ lineIdx ∧ lineIdx < (lines.length : Int) then
          let target := lines.getD lineIdx.toNat ""
          if strContains target old_text then
            let newContent := String.intercalate "\n"
              (lines.set lineIdx.toNat (strReplaceFirst target old_text new_text))
            ⟨.updateSuccess file_path, fs.setFile full newContent,
              [.fileUpdated file_path newContent]⟩
          else ⟨.textMismatchAtLine n, fs, []⟩
        else ⟨.invalidLine n lines.length, fs, []⟩
      | none =>
        if strContains content old_text then
          let newContent := strReplaceFirst content old_text new_text
          ⟨.updateSuccess file_path, fs.setFile full newContent,
            [.fileUpdated file_path newContent]⟩
        else ⟨.textMismatchWhole, fs, []⟩

/-- The empty needle is contained in every list, as with Python `in`. -/
theorem listContains_nil (s : List Char) : listContains [] s = true := by
  cases s <;> simp [listContains, List.isPrefixOf]

/-- Replacing the first occurrence of the empty needle inserts the
replacement at position 0, as Python `s.replace("", new, 1)` does. -/
theorem replaceFirstList_nil (new s : List Char) :
    replaceFirstList [] new s = new ++ s := by
  cases s <;> simp [replaceFirstList, List.isPrefixOf]

/-- Characterisation of `replaceFirstList` on a contained needle: the
haystack splits as `u ++ old ++ v` with `u` shortest possible, and the
result is `u ++ new ++ v` — i.e. exactly the first occurrence is
replaced. -/
theorem replaceFirstList_first_occurrence (old new s : List Char)
    (h : listContains old s = true) :
    ∃ u v : List Char, s = u ++ old ++ v
      ∧ (∀ u' v' : List Char, s = u' ++ old ++ v' → u.length ≤ u'.length)
      ∧ replaceFirstList old new s = u ++ new ++ v := by
  induction s with
  | nil =>
    have hold : old = [] := by
      simpa [listContains, List.isEmpty_iff] using h
    subst hold
    exact ⟨[], [], rfl, fun u' v' _ => Nat.zero_le _,
      by simp [replaceFirstList, List.isPrefixOf]⟩
  | cons c rest ih =>
    by_cases hp : old.isPrefixOf (c :: rest) = true
    · obtain ⟨t, ht⟩ := List.isPrefixOf_iff_prefix.mp hp
      refine ⟨[], t, by simp [ht], fun u' v' _ => Nat.zero_le _, ?_⟩
      simp only [replaceFirstList, hp, if_true]
      rw [← ht, List.drop_left]
      simp
    · have h' : listContains old rest = true := by
        simpa [listContains, hp] using h
      obtain ⟨u, v, hs, hmin, hr⟩ := ih h'
      refine ⟨c :: u, v, by simp [hs], ?_, ?_⟩
      · intro u' v' he
        cases u' with
        | nil =>
          exfalso
          apply hp
          exact List.isPrefixOf_iff_prefix.mpr ⟨v', by simpa using he.symm⟩
        | cons c' u'' =>
          simp only [List.cons_append, List.cons.injEq] at he
          have := hmin u'' v' he.2
          simpa using Nat.succ_le_succ this
      · simp [replaceFirstList, hp, hr]

/-- C2: targeted replace with a 1-based `lineNumber` on an existing in-root
file: an out-of-range index fails with InvalidLine leaving the filesystem
unchanged and broadcasting nothing; an in-range line not containing
`oldText` fails with TextMismatch; otherwise exactly the first occurrence
of `oldText` within that one line (the line splits as `u ++ old ++ v` with
`u` shortest) is replaced by `newText`, the rejoined content is persisted,
a `file_updated` broadcast carrying it is emitted, and success is
returned. -/
theorem C2_line_targeted_replace (fs : FS) (root file_path : List Seg)
    (n : Int) (old new : String) (content : String)
    (hne : file_path ≠ [])
    (hchk : pathCheck root file_path = true)
    (hfile : fs.fileAt (resolveSegs root file_path) = some content) :
    (¬ (1 ≤ n ∧ n ≤ ((strSplitLines content).length : Int)) →
      handle_node_update fs root file_path (some n) old new =
        ⟨.invalidLine n (strSplitLines content).length, fs, []⟩)
    ∧ (1 ≤ n → n ≤ ((strSplitLines content).length : Int) →
        strContains ((strSplitLines content).getD (n - 1).toNat "") old = false →
        handle_node_update fs root file_path (some n) old new =
          ⟨.textMismatchAtLine n, fs, []⟩)
    ∧ (1 ≤ n → n ≤ ((strSplitLines content).length : Int) →
        strContains ((strSplitLines content).getD (n - 1).toNat "") old = true →
        ∃ u v : List Char,
          ((strSplitLines content).getD (n - 1).toNat "").data = u ++ old.data ++ v
          ∧ (∀ u' v' : List Char,
              ((strSplitLines content).getD (n - 1).toNat "").data = u' ++ old.data ++ v' →
              u.length ≤ u'.length)
          ∧ handle_node_update fs root file_path (some n) old new =
              ⟨.updateSuccess file_path,
                fs.setFile (resolveSegs root file_path)
                  (String.intercalate "\n" ((strSplitLines content).set (n - 1).toNat
                    ⟨u ++ new.data ++ v⟩)),
                [.fileUpdated file_path
                  (String.intercalate "\n" ((strSplitLines content).set (n - 1).toNat
                    ⟨u ++ new.data ++ v⟩))]⟩) := by
  have hne' : file_path.isEmpty = false := by
    simpa [List.isEmpty_iff] using hne
  have hisf : fs.isFile (resolveSegs root file_path) = true := by
    simp [FS.isFile, hfile]
  have hex : fs.existsAt (resolveSegs root file_path) = true := by
    simp [FS.existsAt, hisf]
  have hidx : (strSplitLines content).getD (n - 1).toNat "" =
      (strSplitLines content)[n.toNat - 1]?.getD "" := by
    simp [List.getD, Int.pred_toNat]
  refine ⟨?_, ?_, ?_⟩
  · intro hbad
    simp only [handle_node_update, hne', hchk, hex, hisf, hfile]
    simp only [Bool.not_false, Bool.false_eq_true, if_false, Option.getD_some]
    rw [if_neg (by omega : ¬ (0 ≤ n - 1 ∧ n - 1 < ((strSplitLines content).length : Int)))]
    simp
  · intro h1 h2 hmiss
    rw [hidx] at hmiss
    simp only [handle_node_update, hne', hchk, hex, hisf, hfile]
    simp only [Bool.not_false, Bool.false_eq_true, if_false, Option.getD_some]
    rw [if_pos (by omega : (0 ≤ n - 1 ∧ n - 1 < ((strSplitLines content).length : Int)))]
    simp [Int.pred_toNat, hmiss]
  · intro h1 h2 hhit
    obtain ⟨u, v, hsplit, hmin, hrepl⟩ :=
      replaceFirstList_first_occurrence old.data new.data
        ((strSplitLines content).getD (n - 1).toNat "").data hhit
    refine ⟨u, v, hsplit, hmin, ?_⟩
    have hstr : strReplaceFirst ((strSplitLines content)[n.toNat - 1]?.getD "") old new =
        ⟨u ++ new.data ++ v⟩ := by
      rw [← hidx]; exact congrArg String.mk hrepl
    rw [hidx] at hhit
    simp only [handle_node_update, hne', hchk, hex, hisf, hfile]
    simp only [Bool.not_false, Bool.false_eq_true, if_false, Option.getD_some]
    rw [if_pos (by omega : (0 ≤ n - 1 ∧ n - 1 < ((strSplitLines content).length : Int)))]
    simp [Int.pred_toNat, hhit, hstr]

/-- Witness for C2 on a concrete three-line file, replacing on line 2. -/
theorem C2_line_targeted_replace_witness :
    (["a.md"] : List Seg) ≠ []
    ∧ pathCheck ["r"] ["a.md"] = true
    ∧ FS.fileAt ⟨[(["r", "a.md"], "ab\ncd ab cd\nef")], []⟩
        (resolveSegs ["r"] ["a.md"]) = some "ab\ncd ab cd\nef"
    ∧ ((¬ (1 ≤ (2 : Int) ∧ (2 : Int) ≤ (((strSplitLines "ab\ncd ab cd\nef")).length : Int)) →
        handle_node_update ⟨[(["r", "a.md"], "ab\ncd ab cd\nef")], []⟩ ["r"] ["a.md"]
            (some 2) "cd" "XY" =
          ⟨.invalidLine 2 (strSplitLines "ab\ncd ab cd\nef").length,
            ⟨[(["r", "a.md"], "ab\ncd ab cd\nef")], []⟩, []⟩)
      ∧ (1 ≤ (2 : Int) → (2 : Int) ≤ (((strSplitLines "ab\ncd ab cd\nef")).length : Int) →
          strContains ((strSplitLines "ab\ncd ab cd\nef").getD ((2 : Int) - 1).toNat "") "cd" = false →
          handle_node_update ⟨[(["r", "a.md"], "ab\ncd ab cd\nef")], []⟩ ["r"] ["a.md"]
              (some 2) "cd" "XY" =
            ⟨.textMismatchAtLine 2, ⟨[(["r", "a.md"], "ab\ncd ab cd\nef")], []⟩, []⟩)
      ∧ (1 ≤ (2 : Int) → (2 : Int) ≤ (((strSplitLines "ab\ncd ab cd\nef")).length : Int) →
          strContains ((strSplitLines "ab\ncd ab cd\nef").getD ((2 : Int) - 1).toNat "") "cd" = true →
          ∃ u v : List Char,
            ((strSplitLines "ab\ncd ab cd\nef").getD ((2 : Int) - 1).toNat "").data =
              u ++ ("cd" : String).data ++ v
            ∧ (∀ u' v' : List Char,
                ((strSplitLines "ab\ncd ab cd\nef").getD ((2 : Int) - 1).toNat "").data =
                  u' ++ ("cd" : String).data ++ v' →
                u.length ≤ u'.length)
            ∧ handle_node_update ⟨[(["r", "a.md"], "ab\ncd ab cd\nef")], []⟩ ["r"] ["a.md"]
                (some 2) "cd" "XY" =
              ⟨.updateSuccess ["a.md"],
                FS.setFile ⟨[(["r", "a.md"], "ab\ncd ab cd\nef")], []⟩
                  (resolveSegs ["r"] ["a.md"])
                  (String.intercalate "\n" ((strSplitLines "ab\ncd ab cd\nef").set
                    ((2 : Int) - 1).toNat ⟨u ++ ("XY" : String).data ++ v⟩)),
                [.fileUpdated ["a.md"]
                  (String.intercalate "\n" ((strSplitLines "ab\ncd ab cd\nef").set
                    ((2 : Int) - 1).toNat ⟨u ++ ("XY" : String).data ++ v⟩))]⟩)) :=
  ⟨by decide, by decide, by decide,
    C2_line_targeted_replace ⟨[(["r", "a.md"], "ab\ncd ab cd\nef")], []⟩ ["r"] ["a.md"]
      2 "cd" "XY" "ab\ncd ab cd\nef" (by decide) (by decide) (by decide)⟩

/-- C3: targeted replace is atomic on failure — when the named (valid)
line does not contain `oldText`, the handler replies TextMismatch, the
filesystem afterwards is identical to the filesystem before, and no
broadcast is emitted. -/
theorem C3_line_mismatch_leaves_file_untouched (fs : FS) (root file_path : List Seg)
    (n : Int) (old new : String) (content : String)
    (hne : file_path ≠ [])
    (hchk : pathCheck root file_path = true)
    (hfile : fs.fileAt (resolveSegs root file_path) = some content)
    (h1 : 1 ≤ n) (h2 : n ≤ ((strSplitLines content).length : Int))
    (hmiss : strContains ((strSplitLines content).getD (n - 1).toNat "") old = false) :
    handle_node_update fs root file_path (some n) old new =
      ⟨.textMismatchAtLine n, fs, []⟩ := by
  have hne' : file_path.isEmpty = false := by
    simpa [List.isEmpty_iff] using hne
  have hisf : fs.isFile (resolveSegs root file_path) = true := by
    simp [FS.isFile, hfile]
  have hex : fs.existsAt (resolveSegs root file_path) = true := by
    simp [FS.existsAt, hisf]
  have hidx : (strSplitLines content).getD (n - 1).toNat "" =
      (strSplitLines content)[n.toNat - 1]?.getD "" := by
    simp [List.getD, Int.pred_toNat]
  rw [hidx] at hmiss
  simp only [handle_node_update, hne', hchk, hex, hisf, hfile]
  simp only [Bool.not_false, Bool.false_eq_true, if_false, Option.getD_some]
  rw [if_pos (by omega : (0 ≤ n - 1 ∧ n - 1 < ((strSplitLines content).length : Int)))]
  simp [Int.pred_toNat, hmiss]

/-- Witness for C3: line 1 of `"ab\ncd"` does not contain `"zz"`. -/
theorem C3_line_mismatch_leaves_file_untouched_witness :
    (["a.md"] : List Seg) ≠ []
    ∧ pathCheck ["r"] ["a.md"] = true
    ∧ FS.fileAt ⟨[(["r", "a.md"], "ab\ncd")], []⟩ (resolveSegs ["r"] ["a.md"]) =
        some "ab\ncd"
    ∧ 1 ≤ (1 : Int)
    ∧ (1 : Int) ≤ (((strSplitLines "ab\ncd")).length : Int)
    ∧ strContains ((strSplitLines "ab\ncd").getD ((1 : Int) - 1).toNat "") "zz" = false
    ∧ handle_node_update ⟨[(["r", "a.md"], "ab\ncd")], []⟩ ["r"] ["a.md"]
        (some 1) "zz" "XY" =
      ⟨.textMismatchAtLine 1, ⟨[(["r", "a.md"], "ab\ncd")], []⟩, []⟩ :=
  ⟨by decide, by decide, by decide, by decide, by decide, by decide,
    C3_line_mismatch_leaves_file_untouched ⟨[(["r", "a.md"], "ab\ncd")], []⟩ ["r"]
      ["a.md"] 1 "zz" "XY" "ab\ncd" (by decide) (by decide) (by decide) (by decide)
      (by decide) (by decide)⟩

/-- C4: targeted replace without a `lineNumber` on an existing in-root
file: if `oldText` occurs nowhere in the file the handler fails with
TextMismatch leaving the filesystem unchanged and broadcasting nothing;
otherwise exactly the first occurrence of `oldText` in the whole file
(the content splits as `u ++ old ++ v` with `u` shortest) is replaced by
`newText`, the result is persisted, a `file_updated` broadcast carrying
it is emitted, and success is returned. -/
theorem C4_whole_file_first_occurrence (fs : FS) (root file_path : List Seg)
    (old new : String) (content : String)
    (hne : file_path ≠ [])
    (hchk : pathCheck root file_path = true)
    (hfile : fs.fileAt (resolveSegs root file_path) = some content) :
    (strContains content old = false →
      handle_node_update fs root file_path none old new =
        ⟨.textMismatchWhole, fs, []⟩)
    ∧ (strContains content old = true →
        ∃ u v : List Char,
          content.data = u ++ old.data ++ v
          ∧ (∀ u' v' : List Char,
              content.data = u' ++ old.data ++ v' → u.length ≤ u'.length)
          ∧ handle_node_update fs root file_path none old new =
              ⟨.updateSuccess file_path,
                fs.setFile (resolveSegs root file_path) ⟨u ++ new.data ++ v⟩,
                [.fileUpdated file_path ⟨u ++ new.data ++ v⟩]⟩) := by
  have hne' : file_path.isEmpty = false := by
    simpa [List.isEmpty_iff] using hne
  have hisf : fs.isFile (resolveSegs root file_path) = true := by
    simp [FS.isFile, hfile]
  have hex : fs.existsAt (resolveSegs root file_path) = true := by
    simp [FS.existsAt, hisf]
  refine ⟨?_, ?_⟩
  · intro hmiss
    simp [handle_node_update, hne', hchk, hex, hisf, hfile, hmiss]
  · intro hhit
    obtain ⟨u, v, hsplit, hmin, hrepl⟩ :=
      replaceFirstList_first_occurrence old.data new.data content.data hhit
    refine ⟨u, v, hsplit, hmin, ?_⟩
    have hstr : strReplaceFirst content old new = ⟨u ++ new.data ++ v⟩ :=
      congrArg String.mk hrepl
    simp [handle_node_update, hne', hchk, hex, hisf, hfile, hhit, hstr]

/-- Witness for C4 on a concrete file containing two occurrences. -/
theorem C4_whole_file_first_occurrence_witness :
    (["a.md"] : List Seg) ≠ []
    ∧ pathCheck ["r"] ["a.md"] = true
    ∧ FS.fileAt ⟨[(["r", "a.md"], "ab cd ab")], []⟩ (resolveSegs ["r"] ["a.md"]) =
        some "ab cd ab"
    ∧ ((strContains "ab cd ab" "ab" = false →
        handle_node_update ⟨[(["r", "a.md"], "ab cd ab")], []⟩ ["r"] ["a.md"]
            none "ab" "XY" =
          ⟨.textMismatchWhole, ⟨[(["r", "a.md"], "ab cd ab")], []⟩, []⟩)
      ∧ (strContains "ab cd ab" "ab" = true →
          ∃ u v : List Char,
            ("ab cd ab" : String).data = u ++ ("ab" : String).data ++ v
            ∧ (∀ u' v' : List Char,
                ("ab cd ab" : String).data = u' ++ ("ab" : String).data ++ v' →
                u.length ≤ u'.length)
            ∧ handle_node_update ⟨[(["r", "a.md"], "ab cd ab")], []⟩ ["r"] ["a.md"]
                none "ab" "XY" =
              ⟨.updateSuccess ["a.md"],
                FS.setFile ⟨[(["r", "a.md"], "ab cd ab")], []⟩
                  (resolveSegs ["r"] ["a.md"]) ⟨u ++ ("XY" : String).data ++ v⟩,
                [.fileUpdated ["a.md"] ⟨u ++ ("XY" : String).data ++ v⟩]⟩)) :=
  ⟨by decide, by decide, by decide,
    C4_whole_file_first_occurrence ⟨[(["r", "a.md"], "ab cd ab")], []⟩ ["r"] ["a.md"]
      "ab" "XY" "ab cd ab" (by decide) (by decide) (by decide)⟩

/-- Replacing the first occurrence of the empty needle in a string
prepends the replacement, as Python `s.replace("", new, 1)` does. -/
theorem strReplaceFirst_empty_needle (s nw : String) :
    strReplaceFirst s "" nw = nw ++ s := by
  obtain ⟨d⟩ := s
  obtain ⟨d2⟩ := nw
  show String.mk (replaceFirstList [] d2 d) = _
  rw [replaceFirstList_nil]
  rfl

/-- C10: when `old_text` is the empty string the containment test always
succeeds, so on an existing in-root file the handler can never reply
TextMismatch: with a valid 1-based `line_number` it prepends `new_text`
to that line, and without a `line_number` it prepends `new_text` to the
whole file; both modes persist, broadcast and report success. -/
theorem C10_empty_old_text_never_mismatch (fs : FS) (root file_path : List Seg)
    (n : Int) (new : String) (content : String)
    (hne : file_path ≠ [])
    (hchk : pathCheck root file_path = true)
    (hfile : fs.fileAt (resolveSegs root file_path) = some content) :
    (1 ≤ n → n ≤ ((strSplitLines content).length : Int) →
      handle_node_update fs root file_path (some n) "" new =
        ⟨.updateSuccess file_path,
          fs.setFile (resolveSegs root file_path)
            (String.intercalate "\n" ((strSplitLines content).set (n - 1).toNat
              (new ++ (strSplitLines content).getD (n - 1).toNat ""))),
          [.fileUpdated file_path
            (String.intercalate "\n" ((strSplitLines content).set (n - 1).toNat
              (new ++ (strSplitLines content).getD (n - 1).toNat "")))]⟩)
    ∧ handle_node_update fs root file_path none "" new =
        ⟨.updateSuccess file_path,
          fs.setFile (resolveSegs root file_path) (new ++ content),
          [.fileUpdated file_path (new ++ content)]⟩ := by
  have hne' : file_path.isEmpty = false := by
    simpa [List.isEmpty_iff] using hne
  have hisf : fs.isFile (resolveSegs root file_path) = true := by
    simp [FS.isFile, hfile]
  have hex : fs.existsAt (resolveSegs root file_path) = true := by
    simp [FS.existsAt, hisf]
  refine ⟨?_, ?_⟩
  · intro h1 h2
    have hhit : strContains ((strSplitLines content)[n.toNat - 1]?.getD "") "" = true :=
      listContains_nil _
    have hstr : strReplaceFirst ((strSplitLines content)[n.toNat - 1]?.getD "") "" new =
        new ++ (strSplitLines content)[n.toNat - 1]?.getD "" :=
      strReplaceFirst_empty_needle _ _
    simp only [handle_node_update, hne', hchk, hex, hisf, hfile]
    simp only [Bool.not_false, Bool.false_eq_true, if_false, Option.getD_some]
    rw [if_pos (by omega : (0 ≤ n - 1 ∧ n - 1 < ((strSplitLines content).length : Int)))]
    simp [Int.pred_toNat, hhit, hstr, List.getD]
  · have hhit : strContains content "" = true := listContains_nil _
    have hstr : strReplaceFirst content "" new = new ++ content :=
      strReplaceFirst_empty_needle _ _
    simp [handle_node_update, hne', hchk, hex, hisf, hfile, hhit, hstr]

/-- Witness for C10 on a concrete two-line file at line 2 and in
whole-file mode. -/
theorem C10_empty_old_text_never_mismatch_witness :
    (["a.md"] : List Seg) ≠ []
    ∧ pathCheck ["r"] ["a.md"] = true
    ∧ FS.fileAt ⟨[(["r", "a.md"], "ab\ncd")], []⟩ (resolveSegs ["r"] ["a.md"]) =
        some "ab\ncd"
    ∧ ((1 ≤ (2 : Int) → (2 : Int) ≤ ((strSplitLines "ab\ncd").length : Int) →
        handle_node_update ⟨[(["r", "a.md"], "ab\ncd")], []⟩ ["r"] ["a.md"]
            (some 2) "" "XY" =
          ⟨.updateSuccess ["a.md"],
            FS.setFile ⟨[(["r", "a.md"], "ab\ncd")], []⟩ (resolveSegs ["r"] ["a.md"])
              (String.intercalate "\n" ((strSplitLines "ab\ncd").set ((2 : Int) - 1).toNat
                ("XY" ++ (strSplitLines "ab\ncd").getD ((2 : Int) - 1).toNat ""))),
            [.fileUpdated ["a.md"]
              (String.intercalate "\n" ((strSplitLines "ab\ncd").set ((2 : Int) - 1).toNat
                ("XY" ++ (strSplitLines "ab\ncd").getD ((2 : Int) - 1).toNat "")))]⟩)
      ∧ handle_node_update ⟨[(["r", "a.md"], "ab\ncd")], []⟩ ["r"] ["a.md"]
            none "" "XY" =
          ⟨.updateSuccess ["a.md"],
            FS.setFile ⟨[(["r", "a.md"], "ab\ncd")], []⟩ (resolveSegs ["r"] ["a.md"])
              ("XY" ++ "ab\ncd"),
            [.fileUpdated ["a.md"] ("XY" ++ "ab\ncd")]⟩) :=
  ⟨by decide, by decide, by decide,
    C10_empty_old_text_never_mismatch ⟨[(["r", "a.md"], "ab\ncd")], []⟩ ["r"] ["a.md"]
      2 "XY" "ab\ncd" (by decide) (by decide) (by decide)⟩

/-- Live subscriber: a connection handle with an id and a send behaviour
that either delivers (`ok`) or fails like a raised exception (`error`),
e.g. because the peer is already gone. -/
structure Client where
  id : Nat
  send : Event → Except String Unit

/-- Embedding of `broadcast_update` from `server.py`: iterate over the
registered clients in order and attempt `send_json` on each; an exception
from one client is caught, logged and skipped.  The result records, in
iteration order, each client's id and whether delivery succeeded; the
function is total, so no failure escapes to the caller. -/
def broadcast_update (cs : List Client) (e : Event) : List (Nat × Bool) :=
  match cs with
  | [] => []
  | c :: rest =>
    match c.send e with
    | .ok _ => (c.id, true) :: broadcast_update rest e
    | .error _ => (c.id, false) :: broadcast_update rest e

/-- C8: broadcast attempts delivery to every registered subscriber in
order — the attempt list covers exactly the full client list even when
some deliveries fail — and each subscriber's attempt is recorded with its
delivery outcome; totality of `broadcast_update` embeds "never raises to
the caller". -/
theorem C8_broadcast_attempts_all (cs : List Client) (e : Event) :
    (broadcast_update cs e).map Prod.fst = cs.map Client.id
    ∧ ∀ c ∈ cs, (c.id, (c.send e).isOk) ∈ broadcast_update cs e := by
  induction cs with
  | nil => exact ⟨rfl, by simp⟩
  | cons c rest ih =>
    refine ⟨?_, ?_⟩
    · cases hs : c.send e <;> simp [broadcast_update, hs, ih.1]
    · intro d hd
      rcases List.mem_cons.mp hd with hd | hd
      · subst hd
        cases hs : d.send e <;> simp [broadcast_update, hs, Except.isOk, Except.toBool]
      · have := ih.2 d hd
        cases hs : c.send e <;> simp [broadcast_update, hs, this]

/-- Witness for C8: three subscribers, the middle one failing; the failing
delivery is recorded and the later subscriber is still attempted. -/
theorem C8_broadcast_attempts_all_witness :
    ((⟨2, fun _ => .error "gone"⟩ : Client) ∈
      [(⟨1, fun _ => .ok ()⟩ : Client), ⟨2, fun _ => .error "gone"⟩, ⟨3, fun _ => .ok ()⟩])
    ∧ (broadcast_update
        [(⟨1, fun _ => .ok ()⟩ : Client), ⟨2, fun _ => .error "gone"⟩, ⟨3, fun _ => .ok ()⟩]
        (.fileUpdated ["a.md"] "c")).map Prod.fst =
      ([(⟨1, fun _ => .ok ()⟩ : Client), ⟨2, fun _ => .error "gone"⟩, ⟨3, fun _ => .ok ()⟩]).map
        Client.id
    ∧ ((⟨2, fun _ => .error "gone"⟩ : Client).id,
        ((⟨2, fun _ => .error "gone"⟩ : Client).send (.fileUpdated ["a.md"] "c")).isOk) ∈
      broadcast_update
        [(⟨1, fun _ => .ok ()⟩ : Client), ⟨2, fun _ => .error "gone"⟩, ⟨3, fun _ => .ok ()⟩]
        (.fileUpdated ["a.md"] "c") :=
  ⟨List.Mem.tail _ (List.Mem.head _),
    (C8_broadcast_attempts_all
      [⟨1, fun _ => .ok ()⟩, ⟨2, fun _ => .error "gone"⟩, ⟨3, fun _ => .ok ()⟩]
      (.fileUpdated ["a.md"] "c")).1,
    (C8_broadcast_attempts_all
      [⟨1, fun _ => .ok ()⟩, ⟨2, fun _ => .error "gone"⟩, ⟨3, fun _ => .ok ()⟩]
      (.fileUpdated ["a.md"] "c")).2 _ (List.Mem.tail _ (List.Mem.head _))⟩

/-- The regex character class `[a-z]` (ASCII range). -/
def isAsciiLowerAZ (c : Char) : Bool := 'a' ≤ c && c ≤ 'z'

/-- The regex character class `[A-Z]` (ASCII range). -/
def isAsciiUpperAZ (c : Char) : Bool := 'A' ≤ c && c ≤ 'Z'

/-- Language of the regular expression `[a-z]{2}(-[A-Z]{2})?` over a
whole code-point sequence. -/
def localeCore : List Char → Bool
  | [a, b] => isAsciiLowerAZ a && isAsciiLowerAZ b
  | [a, b, h, c, d] =>
    isAsciiLowerAZ a && isAsciiLowerAZ b && h == '-'
      && isAsciiUpperAZ c && isAsciiUpperAZ d
  | _ => false

/-- Embedding of the code's check
`re.match(r'^[a-z]{2}(-[A-Z]{2})?$', locale)`: in Python, `$` matches at
the end of the string or just before one newline at the end of the
string, so a single trailing newline is also accepted. -/
def pyLocaleMatch (s : String) : Bool :=
  localeCore s.data || (s.data.getLast? == some '\n' && localeCore s.data.dropLast)

/-- Matching of the anchored pattern `^[a-z]{2}(-[A-Z]{2})?$` as the spec
words it, read as plain regular-language membership of the whole string
(defined for comparison with the code's Python `re.match` semantics). -/
def specLocaleMatch (s : String) : Bool := localeCore s.data

/-- Result of `get_locale` (`GET /api/locales/{locale}`). -/
inductive LocaleResult where
  | invalidFormat
  | ok (content : String)
  | empty
deriving DecidableEq

/-- Embedding of `get_locale` from `server.py`: reject on regex mismatch
with 400, serve `locales/{locale}.json` when present, fall back to
`locales/en.json`, else serve `{}` (modelled as `empty`).  `locales`
maps locale file names (without extension) to their contents. -/
def get_locale (locales : List (String × String)) (locale : String) : LocaleResult :=
  if !pyLocaleMatch locale then .invalidFormat
  else
    match locales.lookup locale with
    | some j => .ok j
    | none =>
      match locales.lookup "en" with
      | some j => .ok j
      | none => .empty

/-- C9 counterexample: the claim says 400 is returned iff the locale does
not match the anchored pattern; the string `"en\n"` is not in the
pattern's language, yet the code does not return 400 for it (Python's `$`
accepts the trailing newline) — it serves the fallback file instead. -/
theorem C9_trailing_newline_counterexample :
    specLocaleMatch "en\n" = false
    ∧ pyLocaleMatch "en\n" = true
    ∧ get_locale [("en", "ENJSON")] "en\n" = .ok "ENJSON"
    ∧ get_locale [("en", "ENJSON")] "en\n" ≠ .invalidFormat := by
  decide

/-- C9 amended: `get_locale` replies InvalidLocaleFormat (400) exactly
when the locale fails the code's Python `re.match` of the pattern — which
accepts the pattern's language and additionally one trailing newline; and
when the locale matches but has no locale file, the default `en` file is
served whenever it exists. -/
theorem C9_locale_validation_amended (locales : List (String × String)) (s : String) :
    (get_locale locales s = .invalidFormat ↔ pyLocaleMatch s = false)
    ∧ (pyLocaleMatch s = true → List.lookup s locales = none →
        ∀ j, List.lookup "en" locales = some j → get_locale locales s = .ok j) := by
  refine ⟨?_, ?_⟩
  · by_cases hm : pyLocaleMatch s = true
    · cases h1 : List.lookup s locales with
      | some j => simp [get_locale, hm, h1]
      | none =>
        cases h2 : List.lookup "en" locales with
        | some j => simp [get_locale, hm, h1, h2]
        | none => simp [get_locale, hm, h1, h2]
    · have hm' : pyLocaleMatch s = false := by
        cases h : pyLocaleMatch s
        · rfl
        · exact absurd h hm
      simp [get_locale, hm']
  · intro hm h1 j h2
    simp [get_locale, hm, h1, h2]

/-- Witness for C9 amended: `zh-TW` matches, is absent, and the default
`en` file is served. -/
theorem C9_locale_validation_amended_witness :
    pyLocaleMatch "zh-TW" = true
    ∧ List.lookup "zh-TW" [("en", "EN")] = none
    ∧ List.lookup "en" [("en", "EN")] = some "EN"
    ∧ (get_locale [("en", "EN")] "zh-TW" = .invalidFormat ↔ pyLocaleMatch "zh-TW" = false)
    ∧ get_locale [("en", "EN")] "zh-TW" = .ok "EN" :=
  ⟨by decide, by decide, by decide,
    (C9_locale_validation_amended [("en", "EN")] "zh-TW").1,
    (C9_locale_validation_amended [("en", "EN")] "zh-TW").2 (by decide) (by decide)
      "EN" (by decide)⟩

/-- Snapshot of a directory for tree building: its name, the text of its
`content.md` if that file exists, and its subdirectories. -/
inductive DirEntry : Type where
  | node : String → Option String → List DirEntry → DirEntry

/-- Directory name of an entry. -/
def DirEntry.dname : DirEntry → String
  | .node n _ _ => n

/-- Embedding of `read_content_file(directory / "content.md")`: the text
of the conventional document file, or the empty string if absent. -/
def DirEntry.contentOf : DirEntry → String
  | .node _ c _ => c.getD ""

/-- Insertion step of sorting directory entries by name. -/
def insertDir (d : DirEntry) : List DirEntry → List DirEntry
  | [] => [d]
  | e :: es => if d.dname ≤ e.dname then d :: e :: es else e :: insertDir d es

/-- Embedding of Python `sorted(directory.iterdir())` restricted to
directories: sort entries by name. -/
def sortDirs : List DirEntry → List DirEntry
  | [] => []
  | d :: ds => insertDir d (sortDirs ds)

/-- Node of the JSON tree served by `/api/tree`. -/
structure TreeNode where
  id : String
  name : String
  content : String
  children : List TreeNode

theorem mem_insertDir {a d : DirEntry} {l : List DirEntry}
    (h : a ∈ insertDir d l) : a = d ∨ a ∈ l := by
  induction l with
  | nil =>
    simp [insertDir] at h
    exact Or.inl h
  | cons e es ih =>
    by_cases hle : d.dname ≤ e.dname
    · simp only [insertDir, if_pos hle] at h
      exact List.mem_cons.mp h
    · simp only [insertDir, if_neg hle] at h
      rcases List.mem_cons.mp h with h' | h'
      · exact Or.inr (h' ▸ List.mem_cons_self e es)
      · rcases ih h' with h'' | h''
        · exact Or.inl h''
        · exact Or.inr (List.mem_cons_of_mem e h'')

theorem mem_sortDirs {a : DirEntry} {l : List DirEntry}
    (h : a ∈ sortDirs l) : a ∈ l := by
  induction l with
  | nil => simp [sortDirs] at h
  | cons d ds ih =>
    rcases mem_insertDir (by simpa [sortDirs] using h) with h' | h'
    · exact h' ▸ List.mem_cons_self d ds
    · exact List.mem_cons_of_mem d (ih h')

theorem sizeOf_lt_of_mem_subs {s : DirEntry} {nm : String} {c : Option String}
    {subs : List DirEntry} (h : s ∈ subs) :
    sizeOf s < sizeOf (DirEntry.node nm c subs) := by
  have := List.sizeOf_lt_of_mem h
  simp only [DirEntry.node.sizeOf_spec]
  omega

/-- Embedding of `build_tree_recursive` from `server.py`: a node carries
the directory name as id, the display name looked up in the config's
`modules` mapping with the directory name as fallback, the content of
`content.md` (empty if absent), and the recursively built children over
the name-sorted, non-hidden subdirectories. -/
def build_tree_recursive (mods : List (String × String)) : DirEntry → TreeNode
  | .node nm c subs =>
    ⟨nm, (mods.lookup nm).getD nm, c.getD "",
      (((sortDirs subs).filter (fun s => !strStartsWith s.dname ".")).attach.map
        (fun s => build_tree_recursive mods s.1))⟩
termination_by d => sizeOf d
decreasing_by
  exact sizeOf_lt_of_mem_subs (mem_sortDirs (List.mem_filter.mp s.2).1)

/-- Output of `/api/tree`: the configured title and one tree per visible
module directory. -/
structure TreeOut where
  title : String
  modules : List TreeNode

/-- Embedding of `get_tree` from `server.py`: walk the root's directory
entries sorted by name, skip hidden ones, and build each tree. -/
def get_tree (title : String) (mods : List (String × String))
    (entries : List DirEntry) : TreeOut :=
  ⟨title,
    ((sortDirs entries).filter (fun d => !strStartsWith d.dname ".")).map
      (build_tree_recursive mods)⟩

/-- Reflexive descendant relation on tree nodes. -/
inductive TreeNode.Subnode : TreeNode → TreeNode → Prop
  | refl (t : TreeNode) : TreeNode.Subnode t t
  | child {u c t : TreeNode} :
      c ∈ t.children → TreeNode.Subnode u c → TreeNode.Subnode u t

/-- Strong induction over directory entries through their subdirectory
lists. -/
def DirEntry.strongInd {P : DirEntry → Prop}
    (h : ∀ nm c subs, (∀ s, s ∈ subs → P s) → P (DirEntry.node nm c subs)) :
    ∀ d, P d
  | .node nm c subs => h nm c subs (fun s _hs => DirEntry.strongInd h s)
termination_by d => sizeOf d
decreasing_by exact sizeOf_lt_of_mem_subs _hs

theorem build_tree_eq (mods : List (String × String)) (nm : String)
    (c : Option String) (subs : List DirEntry) :
    build_tree_recursive mods (.node nm c subs) =
      ⟨nm, (mods.lookup nm).getD nm, c.getD "",
        ((sortDirs subs).filter (fun s => !strStartsWith s.dname ".")).map
          (build_tree_recursive mods)⟩ := by
  rw [build_tree_recursive]
  rw [List.attach_map_val]

theorem build_tree_id (mods : List (String × String)) (d : DirEntry) :
    (build_tree_recursive mods d).id = d.dname := by
  cases d with
  | node nm c subs => rw [build_tree_eq]; rfl

theorem build_tree_content (mods : List (String × String)) (d : DirEntry) :
    (build_tree_recursive mods d).content = d.contentOf := by
  cases d with
  | node nm c subs => rw [build_tree_eq]; rfl

theorem pairwise_insertDir {d : DirEntry} {l : List DirEntry}
    (h : l.Pairwise (fun a b => a.dname ≤ b.dname)) :
    (insertDir d l).Pairwise (fun a b => a.dname ≤ b.dname) := by
  induction l with
  | nil => simp [insertDir]
  | cons e es ih =>
    by_cases hle : d.dname ≤ e.dname
    · simp only [insertDir, if_pos hle]
      refine List.Pairwise.cons ?_ h
      intro b hb
      rcases List.mem_cons.mp hb with hb | hb
      · exact hb ▸ hle
      · exact le_trans hle ((List.pairwise_cons.mp h).1 b hb)
    · simp only [insertDir, if_neg hle]
      refine List.Pairwise.cons ?_ (ih (List.pairwise_cons.mp h).2)
      intro b hb
      rcases mem_insertDir hb with hb | hb
      · exact hb ▸ le_of_not_le hle
      · exact (List.pairwise_cons.mp h).1 b hb

theorem pairwise_sortDirs (l : List DirEntry) :
    (sortDirs l).Pairwise (fun a b => a.dname ≤ b.dname) := by
  induction l with
  | nil => simp [sortDirs]
  | cons d ds ih =>
    simp only [sortDirs]
    exact pairwise_insertDir ih

theorem subnode_of_build (mods : List (String × String)) :
    ∀ d : DirEntry, ∀ u : TreeNode,
      TreeNode.Subnode u (build_tree_recursive mods d) →
      ∃ e : DirEntry, u = build_tree_recursive mods e := by
  refine DirEntry.strongInd ?_
  intro nm c subs ih u hsub
  rw [build_tree_eq] at hsub
  cases hsub with
  | refl => exact ⟨.node nm c subs, (build_tree_eq mods nm c subs).symm⟩
  | child hc hsub' =>
    obtain ⟨s, hsL, rfl⟩ := List.mem_map.mp hc
    exact ih s (mem_sortDirs (List.mem_filter.mp hsL).1) u hsub'

theorem subnode_not_hidden (mods : List (String × String)) :
    ∀ d : DirEntry, strStartsWith d.dname "." = false →
      ∀ u : TreeNode, TreeNode.Subnode u (build_tree_recursive mods d) →
        strStartsWith u.id "." = false := by
  refine DirEntry.strongInd ?_
  intro nm c subs ih hnm u hsub
  rw [build_tree_eq] at hsub
  cases hsub with
  | refl => simpa [DirEntry.dname] using hnm
  | child hc hsub' =>
    obtain ⟨s, hsL, rfl⟩ := List.mem_map.mp hc
    have hf := List.mem_filter.mp hsL
    have hsh : strStartsWith s.dname "." = false := by
      simpa using hf.2
    exact ih s (mem_sortDirs hf.1) hsh u hsub'

theorem subnode_children_sorted (mods : List (String × String)) :
    ∀ d : DirEntry, ∀ u : TreeNode,
      TreeNode.Subnode u (build_tree_recursive mods d) →
      u.children.Pairwise (fun a b : TreeNode => a.id ≤ b.id) := by
  refine DirEntry.strongInd ?_
  intro nm c subs ih u hsub
  rw [build_tree_eq] at hsub
  cases hsub with
  | refl =>
    refine List.pairwise_map.mpr ?_
    have h2 := List.Pairwise.sublist
      (@List.filter_sublist DirEntry (fun s => !strStartsWith s.dname ".")
        (sortDirs subs))
      (pairwise_sortDirs subs)
    exact h2.imp (fun hab => by
      rw [build_tree_id, build_tree_id]; exact hab)
  | child hc hsub' =>
    obtain ⟨s, hsL, rfl⟩ := List.mem_map.mp hc
    exact ih s (mem_sortDirs (List.mem_filter.mp hsL).1) u hsub'

/-- C7: the tree served by `/api/tree` contains no node for any hidden
directory (name starting with a dot) at any depth, every node's children
list is ordered alphabetically by directory name (equal to the node ids),
and every node is the faithful build of some directory entry, so its
content is the text of that directory's `content.md`, or the empty string
when that file is absent. -/
theorem C7_tree_hidden_sorted_content (title : String) (mods : List (String × String))
    (entries : List DirEntry) :
    ∀ t ∈ (get_tree title mods entries).modules,
      ∀ u : TreeNode, TreeNode.Subnode u t →
        strStartsWith u.id "." = false
        ∧ u.children.Pairwise (fun a b : TreeNode => a.id ≤ b.id)
        ∧ ∃ e : DirEntry, u = build_tree_recursive mods e
            ∧ u.content = e.contentOf := by
  intro t ht u hsub
  obtain ⟨d, hd, rfl⟩ := List.mem_map.mp ht
  have hf := List.mem_filter.mp hd
  have hdh : strStartsWith d.dname "." = false := by
    simpa using hf.2
  refine ⟨subnode_not_hidden mods d hdh u hsub,
    subnode_children_sorted mods d u hsub, ?_⟩
  obtain ⟨e, rfl⟩ := subnode_of_build mods d u hsub
  exact ⟨e, rfl, build_tree_content mods e⟩

theorem C7_tree_hidden_sorted_content_witness :
    (build_tree_recursive [] (DirEntry.node "m" (some "hello") []) ∈
      (get_tree "T" [] [DirEntry.node "m" (some "hello") []]).modules)
    ∧ TreeNode.Subnode (build_tree_recursive [] (DirEntry.node "m" (some "hello") []))
        (build_tree_recursive [] (DirEntry.node "m" (some "hello") []))
    ∧ (strStartsWith (build_tree_recursive [] (DirEntry.node "m" (some "hello") [])).id
          "." = false
      ∧ (build_tree_recursive [] (DirEntry.node "m" (some "hello") [])).children.Pairwise
          (fun a b : TreeNode => a.id ≤ b.id)
      ∧ ∃ e : DirEntry,
          build_tree_recursive [] (DirEntry.node "m" (some "hello") []) =
            build_tree_recursive [] e
          ∧ (build_tree_recursive [] (DirEntry.node "m" (some "hello") [])).content =
              e.contentOf) := by
  have hmem : build_tree_recursive [] (DirEntry.node "m" (some "hello") []) ∈
      (get_tree "T" [] [DirEntry.node "m" (some "hello") []]).modules := by
    simp only [get_tree, sortDirs, insertDir]
    rw [List.filter_cons_of_pos]
    · exact List.Mem.head _
    · decide
  exact ⟨hmem, TreeNode.Subnode.refl _,
    C7_tree_hidden_sorted_content "T" [] [DirEntry.node "m" (some "hello") []] _ hmem _ (TreeNode.Subnode.refl _)⟩
